import Mathlib

/-!
Scroll position kept across one page reload (persist_scroll.js)

A shallow embedding of `core/static/js/persist_scroll.js`:

```
(function () {
  const key = "adminScroll:" + location.pathname;
  window.addEventListener("beforeunload", () =>
    sessionStorage.setItem(key, window.scrollY));
  window.addEventListener("load", () => {
    const y = sessionStorage.getItem(key);
    if (y !== null) window.scrollTo(0, +y);
    sessionStorage.removeItem(key);             // one-shot
  });
})();
```

The script is three expressions over host objects (`location`, `sessionStorage`,
`window`).  The host objects are modelled first, then the script itself, then the
theorems.

Conventions of the model
* A viewport offset is a natural number of pixels, at most the maximal scroll
  offset of the page once `scrollTo` has placed it.
* A Number is `NaN`, an infinity, `-0`, or a finite binary64 value kept as the
  rational it denotes.  The unary `+` applied to a string is ECMAScript
  `StringToNumber` over the whole `StringNumericLiteral` grammar, rounded to
  binary64 (nearest, ties to even, with overflow and underflow).
* `Number::toString` of an integer is its decimal expansion below `2 ^ 53` and
  the shortest digits that read back as the number from there on, in exponential
  form from `10 ^ 21`.  Reading back is decided by `roundNat`, the rounding to
  binary64 computed on integers, which is proved to agree with the rounding of
  `StringToNumber`.
* The session store belongs to one origin and has a quota; `setItem` throws when
  the write would exceed it.
* An exception thrown by a handler is returned together with the page state at
  the point of the throw.
-/

namespace PersistScroll

/-! ## ECMAScript numbers and the two coercions the script relies on -/

/-- An ECMAScript Number value, as far as the script can observe one. -/
inductive JSNumber where
  | nan : JSNumber
  | infinity (negative : Bool) : JSNumber
  | negZero : JSNumber
  | finite (value : ℚ) : JSNumber
  deriving DecidableEq

/-- The Number value of a whole pixel count. -/
def JSNumber.ofNat (n : Nat) : JSNumber := JSNumber.finite (n : ℚ)

/-- The integer `e` with `2 ^ e ≤ a < 2 ^ (e + 1)`, for a positive rational `a`. -/
def binaryExponent (a : ℚ) : Int :=
  let e : Int := (Nat.log2 a.num.natAbs : Int) - (Nat.log2 a.den : Int)
  if a < (2 : ℚ) ^ e then e - 1 else e

/-- The integer nearest to a non-negative rational, a tie going to the even one. -/
def roundHalfToEven (t : ℚ) : Int :=
  if t - ⌊t⌋ < 1 / 2 then ⌊t⌋
  else if 1 / 2 < t - ⌊t⌋ then ⌊t⌋ + 1
  else if ⌊t⌋ % 2 = 0 then ⌊t⌋ else ⌊t⌋ + 1

/-- The magnitude of the binary64 value nearest to a positive rational (round to
nearest, ties to even, subnormals included); `none` when it overflows. -/
def roundMagnitude (a : ℚ) : Option ℚ :=
  let ulp : ℚ := (2 : ℚ) ^ (max (binaryExponent a) (-1022) - 52)
  let v : ℚ := (roundHalfToEven (a / ulp) : ℚ) * ulp
  if v < (2 : ℚ) ^ (1024 : Nat) then some v else none

/-- The Number value of the mathematical value `a`, negated when `negative`, for
`a ≥ 0`: the nearest binary64 value, an infinity on overflow, a zero on
underflow. -/
def toBinary64 (negative : Bool) (a : ℚ) : JSNumber :=
  if a = 0 then (if negative then JSNumber.negZero else JSNumber.finite 0)
  else
    match roundMagnitude a with
    | none => JSNumber.infinity negative
    | some v =>
      if v = 0 then (if negative then JSNumber.negZero else JSNumber.finite 0)
      else JSNumber.finite (if negative then -v else v)

/-- The decimal digits of a natural number, most significant first. -/
def decimalDigits (n : Nat) : List Char := Nat.toDigits 10 n

/-- The Number value of a natural number, computed on integers: the number is cut
to its 53 leading binary digits, rounded to nearest with ties to even; `none`
when the result overflows to infinity. -/
def roundNat (n : Nat) : Option Nat :=
  let shift := (Nat.toDigits 2 n).length - 53
  let q := n / 2 ^ shift
  let r := n % 2 ^ shift
  let rounded :=
    if 2 * r < 2 ^ shift then q
    else if 2 ^ shift < 2 * r then q + 1
    else if q % 2 = 0 then q else q + 1
  if rounded * 2 ^ shift < (2 ^ 256) ^ 4 then some (rounded * 2 ^ shift) else none

/-- The pairs `(s, j)` with `s` of exactly `k` decimal digits whose value
`s * 10 ^ j` has `N` as its Number value, among the two significands next to
`N / 10 ^ j`, for a value of as many digits as `N` or one more. -/
def digitCandidates (N k : Nat) : List (Nat × Nat) :=
  let len := (decimalDigits N).length
  let pairs := [len - k, len + 1 - k].flatMap fun j => [(N / 10 ^ j, j), (N / 10 ^ j + 1, j)]
  pairs.filter fun c =>
    10 ^ (k - 1) ≤ c.1 ∧ c.1 < 10 ^ k ∧ roundNat (c.1 * 10 ^ c.2) = some N

/-- Of two candidates the one whose value is nearer to `N`, the even significand
on a tie. -/
def nearer (N : Nat) (a b : Nat × Nat) : Nat × Nat :=
  let da := ((a.1 * 10 ^ a.2 : Nat) : Int) - N
  let db := ((b.1 * 10 ^ b.2 : Nat) : Int) - N
  if da.natAbs < db.natAbs then a
  else if db.natAbs < da.natAbs then b
  else if a.1 % 2 = 0 then a else b

/-- The significand `s` and power `j` that `Number::toString` prints for an
integer Number `N`: the fewest digits whose value still reads back as `N`. -/
def shortestDigits (N : Nat) : Nat × Nat :=
  let found := (List.range (decimalDigits N).length).filterMap fun i =>
    match digitCandidates N (i + 1) with
    | [] => none
    | c :: cs => some (cs.foldl (nearer N) c)
  match found with
  | [] => (N, 0)
  | c :: _ => c

/-- The operation `Number::toString` on an integer Number of `2 ^ 53` or more: the
shortest digits that read back as the number, padded with zeros up to 21
digits, in exponential form beyond. -/
def numberToStringLarge (N : Nat) : String :=
  let ds := decimalDigits (shortestDigits N).1
  let n := ds.length + (shortestDigits N).2
  if n ≤ 21 then String.mk (ds ++ List.replicate (shortestDigits N).2 '0')
  else
    match ds with
    | [] => String.mk []
    | d :: rest =>
      if rest = [] then String.mk (d :: 'e' :: '+' :: decimalDigits (n - 1))
      else String.mk (d :: '.' :: rest ++ 'e' :: '+' :: decimalDigits (n - 1))

/-- The ECMAScript operation `Number::toString` on a non-negative integer Number,
the conversion `setItem` applies to `window.scrollY`.  Every integer below
`2 ^ 53` is a Number and no shorter digit string reads back as it, so it is
printed as its decimal digits. -/
def numberToString (n : Nat) : String :=
  if n < 2 ^ 53 then String.mk (decimalDigits n) else numberToStringLarge n

/-- The production `StrWhiteSpaceChar`: the code points of `WhiteSpace` and `LineTerminator`. -/
def isStrWhiteSpaceChar (c : Char) : Bool :=
  c.toNat ∈ [0x9, 0xA, 0xB, 0xC, 0xD, 0x20, 0xA0, 0x1680,
    0x2000, 0x2001, 0x2002, 0x2003, 0x2004, 0x2005, 0x2006, 0x2007, 0x2008, 0x2009, 0x200A,
    0x2028, 0x2029, 0x202F, 0x205F, 0x3000, 0xFEFF]

/-- Strips `StrWhiteSpace` from both ends. -/
def trimStrWhiteSpace (cs : List Char) : List Char :=
  ((cs.dropWhile isStrWhiteSpaceChar).reverse.dropWhile isStrWhiteSpaceChar).reverse

/-- The value of a digit in the given radix, if the character is one. -/
def digitValue (radix : Nat) (c : Char) : Option Nat :=
  let n := c.toNat
  let v :=
    if 48 ≤ n ∧ n ≤ 57 then some (n - 48)
    else if 97 ≤ n ∧ n ≤ 102 then some (n - 87)
    else if 65 ≤ n ∧ n ≤ 70 then some (n - 55)
    else none
  match v with
  | some d => if d < radix then some d else none
  | none => none

/-- Is the character a `DecimalDigit`? -/
def isDecimalDigit (c : Char) : Bool := (digitValue 10 c).isSome

/-- The mathematical value of a run of digits, most significant first;
`none` if some character is not a digit of the radix. -/
def digitsValue (radix : Nat) : List Char → Nat → Option Nat
  | [], acc => some acc
  | c :: cs, acc =>
    match digitValue radix c with
    | some d => digitsValue radix cs (acc * radix + d)
    | none => none

/-- Is the character one that `Number::toString` prints for a non-negative
integer: a digit, the point, or the `e` and `+` of an exponent? -/
def isNumeralChar (c : Char) : Bool :=
  isDecimalDigit c || c == '.' || c == 'e' || c == '+'

/-- The integer is a Number value, as every integer `window.scrollY` is: rounding
it to binary64 changes nothing. -/
def IsNumber (n : Nat) : Prop := roundNat n = some n

instance (n : Nat) : Decidable (IsNumber n) :=
  inferInstanceAs (Decidable (roundNat n = some n))

/-- A non-empty run of digits (`DecimalDigits`, `HexDigits`, ...) and its value. -/
def parseDigits (radix : Nat) (cs : List Char) : Option Nat :=
  match cs with
  | [] => none
  | _ :: _ => digitsValue radix cs 0

/-- The production `NonDecimalIntegerLiteral`: `0x`, `0o` or `0b` (either case) and digits. -/
def parseNonDecimalIntegerLiteral (cs : List Char) : Option Nat :=
  match cs with
  | '0' :: p :: ds =>
    if p = 'x' ∨ p = 'X' then parseDigits 16 ds
    else if p = 'o' ∨ p = 'O' then parseDigits 8 ds
    else if p = 'b' ∨ p = 'B' then parseDigits 2 ds
    else none
  | _ => none

/-- The `SignedInteger` of an `ExponentPart`. -/
def parseSignedInteger (cs : List Char) : Option Int :=
  match cs with
  | '+' :: ds => (parseDigits 10 ds).map Int.ofNat
  | '-' :: ds => (parseDigits 10 ds).map (fun n => - Int.ofNat n)
  | _ => (parseDigits 10 cs).map Int.ofNat

/-- What follows the mantissa: nothing, or an `ExponentPart`. Gives the exponent. -/
def parseExponentPart (cs : List Char) : Option Int :=
  match cs with
  | [] => some 0
  | c :: ds => if c = 'e' ∨ c = 'E' then parseSignedInteger ds else none

/-- The production `StrUnsignedDecimalLiteral` other than `Infinity`:
`DecimalDigits . DecimalDigits? ExponentPart?`, `. DecimalDigits ExponentPart?`
or `DecimalDigits ExponentPart?`, with its exact mathematical value. -/
def parseUnsignedDecimal (cs : List Char) : Option ℚ :=
  let intPart := cs.takeWhile isDecimalDigit
  let rest := cs.dropWhile isDecimalDigit
  let fracPart := match rest with
    | '.' :: r => r.takeWhile isDecimalDigit
    | _ => []
  let tail := match rest with
    | '.' :: r => r.dropWhile isDecimalDigit
    | _ => rest
  if intPart = [] ∧ fracPart = [] then none
  else
    match digitsValue 10 (intPart ++ fracPart) 0, parseExponentPart tail with
    | some m, some e => some ((m : ℚ) * (10 : ℚ) ^ (e - (fracPart.length : Int)))
    | _, _ => none

/-- The production `StrDecimalLiteral`: an optional sign, then `Infinity` or a decimal
literal, whose mathematical value is rounded to a Number. -/
def parseStrDecimalLiteral (cs : List Char) : JSNumber :=
  let negative := match cs with
    | '-' :: _ => true
    | _ => false
  let body := match cs with
    | '+' :: r => r
    | '-' :: r => r
    | _ => cs
  if body = "Infinity".data then JSNumber.infinity negative
  else
    match parseUnsignedDecimal body with
    | some q => toBinary64 negative q
    | none => JSNumber.nan

/-- ECMAScript `StringToNumber`, the meaning of `+y` for a string `y`: the empty
or all-blank string is `0`, a `StringNumericLiteral` is the Number value of its
mathematical value, anything else is `NaN`. -/
def stringToNumber (s : String) : JSNumber :=
  let t := trimStrWhiteSpace s.data
  match t with
  | [] => JSNumber.finite 0
  | _ :: _ =>
    match parseNonDecimalIntegerLiteral t with
    | some n => toBinary64 false (n : ℚ)
    | none => parseStrDecimalLiteral t

/-! ## The host objects: session storage, viewport, location -/

/-- An exception raised by the host: `storageAccess` when the session store cannot
be reached at all, `quotaExceeded` when a write does not fit the quota. -/
inductive JSException where
  | storageAccess : JSException
  | quotaExceeded : JSException
  deriving DecidableEq

/-- The `sessionStorage` object of one tab and origin: a map from keys to string
values, kept as an association list with at most one entry per written key.  The
script never enumerates the keys, so their order is not observable. -/
structure Storage where
  entries : List (String × String)
  deriving DecidableEq

/-- The method `getItem(key)`: the stored string, or `none` for the `null` of an absent key. -/
def Storage.getItem (s : Storage) (k : String) : Option String :=
  s.entries.lookup k

/-- The method `removeItem(key)`: drops the entry of the key; nothing happens if there is none. -/
def Storage.removeItem (s : Storage) (k : String) : Storage :=
  ⟨s.entries.filter (fun e => e.1 != k)⟩

/-- The store in which the entry of the key is replaced by, or created with, the
given value. -/
def Storage.withItem (s : Storage) (k v : String) : Storage :=
  ⟨(k, v) :: (s.removeItem k).entries⟩

/-- The space the store takes: the characters of all its keys and values. -/
def Storage.size (s : Storage) : Nat :=
  (s.entries.map (fun e => e.1.length + e.2.length)).sum

/-- The method `setItem(key, value)`, the value already converted to a string: the
entry of the key is replaced, or created, unless the store would then take more
than the quota; in that case `QuotaExceededError` is thrown and nothing is
written. -/
def Storage.setItem (s : Storage) (quota : Nat) (k v : String) : Except JSException Storage :=
  if (s.withItem k v).size ≤ quota then Except.ok (s.withItem k v)
  else Except.error JSException.quotaExceeded

/-- The parts of `window.location`; `host` includes the port. -/
structure Location where
  protocol : String
  host : String
  pathname : String
  search : String
  hash : String
  deriving DecidableEq

/-- The origin of a location: scheme, and host with port. -/
def Location.origin (l : Location) : String × String := (l.protocol, l.host)

/-- The state of the page that the script reads and writes.  `scrollMaxX` and
`scrollMaxY` are the largest offsets the document can be scrolled to.
`sessionStorage` is `none` when the session store is absent or disabled, so that
every access to it throws; `storageQuota` is the number of characters the user
agent lets it hold.  `scrollToCalls` records the arguments of each
`window.scrollTo` call, in order. -/
structure Window where
  scrollX : Nat
  scrollY : Nat
  scrollMaxX : Nat
  scrollMaxY : Nat
  scrollToCalls : List (JSNumber × JSNumber)
  sessionStorage : Option Storage
  storageQuota : Nat
  deriving DecidableEq

/-- The pixel a scroll target asks for, before the page size is taken into
account: a non-finite target is normalised to `0`, a negative one is clamped to
the start of the scrolling area, a fractional one is rounded to the nearest
pixel. -/
def JSNumber.toPixels : JSNumber → Nat
  | JSNumber.nan => 0
  | JSNumber.infinity _ => 0
  | JSNumber.negZero => 0
  | JSNumber.finite q => ⌊q + 1 / 2⌋₊

/-- The method `window.scrollTo(x, y)`: the viewport moves to the target, clamped
to the scrollable extent of the page, and the call is recorded. -/
def Window.scrollTo (w : Window) (x y : JSNumber) : Window :=
  { w with
    scrollX := min x.toPixels w.scrollMaxX
    scrollY := min y.toPixels w.scrollMaxY
    scrollToCalls := w.scrollToCalls ++ [(x, y)] }

/-- How a handler ends: the exception it let escape, if any, and the page state
it leaves. -/
structure Completion where
  thrown : Option JSException
  window : Window
  deriving DecidableEq

/-! ## The script -/

/-- The storage key: `const key = "adminScroll:" + location.pathname;` -/
def key (location : Location) : String := "adminScroll:" ++ location.pathname

/-- The `beforeunload` listener: `() => sessionStorage.setItem(key, window.scrollY)`.
There is no `try`: what the store access or `setItem` throws escapes. -/
def beforeunload (key : String) (w : Window) : Completion :=
  match w.sessionStorage with
  | none => ⟨some JSException.storageAccess, w⟩
  | some store =>
    match store.setItem w.storageQuota key (numberToString w.scrollY) with
    | Except.error e => ⟨some e, w⟩
    | Except.ok store1 => ⟨none, { w with sessionStorage := some store1 }⟩

/-- The `load` listener:
`const y = sessionStorage.getItem(key); if (y !== null) window.scrollTo(0, +y);`
`sessionStorage.removeItem(key);` -/
def load (key : String) (w : Window) : Completion :=
  match w.sessionStorage with
  | none => ⟨some JSException.storageAccess, w⟩
  | some store =>
    let y := store.getItem key
    let w1 := match y with
      | some v => w.scrollTo (JSNumber.ofNat 0) (stringToNumber v)
      | none => w
    match w1.sessionStorage with
    | none => ⟨some JSException.storageAccess, w1⟩
    | some store1 => ⟨none, { w1 with sessionStorage := some (store1.removeItem key) }⟩

/-! ## Page views -/

/-- The page state with the session store present and holding `store`. -/
def Window.withStore (w : Window) (store : Storage) : Window :=
  { w with sessionStorage := some store }

/-- The page state with the viewport scrolled vertically to `n`. -/
def Window.atOffset (w : Window) (n : Nat) : Window :=
  { w with scrollY := n }

/-- The page state with the viewport moved to `(x, y)` by the user. -/
def Window.scrolledBy (w : Window) (x y : Nat) : Window :=
  { w with scrollX := x, scrollY := y }

/-- The state in which a page view starts after a navigation inside one origin, in
the same tab: the viewport, page size and call record are those of the new
page, the session store is the one the previous page view left. -/
def Window.after (fresh previous : Window) : Window :=
  { fresh with sessionStorage := previous.sessionStorage }

/-- The state in which the page view at `target` starts after a navigation from
the page at `source` in the same tab.  The session store is per origin: inside
one origin the new page view finds the store the previous one left, across
origins it finds the store of its own origin, which `fresh` holds. -/
def Window.afterNavigation (fresh previous : Window) (source target : Location) : Window :=
  if source.origin = target.origin then fresh.after previous else fresh

/-- What `getItem(k)` would give on the session store of the page, `none` also
when the store is not accessible. -/
def Window.storedItem (w : Window) (k : String) : Option String :=
  match w.sessionStorage with
  | some store => store.getItem k
  | none => none

/-- The number of entries the session store of the page holds under `k`. -/
def Window.entryCount (w : Window) (k : String) : Nat :=
  match w.sessionStorage with
  | some store => (store.entries.filter (fun e => e.1 == k)).length
  | none => 0

/-! ## Concrete pages used in the scenarios -/

/-- The page at path `/admin/items`. -/
def itemsPage : Location := ⟨"https:", "admin.example.org", "/admin/items", "", ""⟩

/-- The same path on the same host, with a query string and a fragment. -/
def itemsPageSorted : Location :=
  ⟨"https:", "admin.example.org", "/admin/items", "?o=2", "#changelist"⟩

/-- The same path on another host, with a query string and a fragment. -/
def itemsPageFiltered : Location :=
  ⟨"https:", "backoffice.example.org", "/admin/items", "?page=2", "#row-17"⟩

/-- The page at path `/admin/reports`. -/
def reportsPage : Location := ⟨"https:", "admin.example.org", "/admin/reports", "", ""⟩

/-- A page view that has just started on a long page: viewport at the origin, up
to 5000 pixels to scroll, no scroll call made, the given entries in the session
store and a quota of five mebi-characters. -/
def freshWindow (entries : List (String × String)) : Window :=
  ⟨0, 0, 0, 5000, [], some ⟨entries⟩, 5242880⟩

/-- A page view that has just started on a short page, with 1200 pixels to scroll. -/
def shortWindow (entries : List (String × String)) : Window :=
  ⟨0, 0, 0, 1200, [], some ⟨entries⟩, 5242880⟩

/-- A page view on a long page whose session store may hold `quota` characters. -/
def quotaWindow (quota : Nat) (entries : List (String × String)) : Window :=
  ⟨0, 0, 0, 5000, [], some ⟨entries⟩, quota⟩

/-- A page view in a tab whose session store cannot be accessed. -/
def storelessWindow : Window := ⟨0, 310, 0, 5000, [], none, 5242880⟩

/-- A run of characters is the decimal numeral of `n`. -/
def IsNumeral (ds : List Char) (n : Nat) : Prop :=
  ds ≠ [] ∧ (∀ c ∈ ds, isDecimalDigit c = true) ∧ digitsValue 10 ds 0 = some n

/-! ## Rounding to binary64 is the identity on the integers below `2 ^ 53` -/

theorem roundHalfToEven_natCast (m : Nat) : roundHalfToEven (m : ℚ) = (m : Int) := by
  unfold roundHalfToEven
  have h : ⌊(m : ℚ)⌋ = (m : Int) := Int.floor_natCast m
  rw [h]
  have h0 : ((m : ℚ) - ((m : Int) : ℚ)) < 1 / 2 := by
    simp
  simp only [h0, if_true]

theorem binaryExponent_natCast (n : Nat) (h : 0 < n) :
    binaryExponent (n : ℚ) = (Nat.log 2 n : Int) := by
  unfold binaryExponent
  have hnum : ((n : ℚ).num).natAbs = n := by simp
  have hden : (n : ℚ).den = 1 := by simp
  have h1 : Nat.log2 1 = 0 := by rw [Nat.log2_eq_log_two]; simp
  simp only [hnum, hden, h1, Nat.log2_eq_log_two, Nat.cast_zero, sub_zero]
  have hle : 2 ^ Nat.log 2 n ≤ n := Nat.pow_log_le_self 2 (Nat.pos_iff_ne_zero.mp h)
  have hq : ¬ ((n : ℚ) < (2 : ℚ) ^ ((Nat.log 2 n : Nat) : Int)) := by
    rw [zpow_natCast, not_lt]
    exact_mod_cast hle
  simp only [hq, if_false]

theorem roundMagnitude_natCast (n : Nat) (h : 0 < n) (hn : n < 2 ^ 53) :
    roundMagnitude (n : ℚ) = some (n : ℚ) := by
  unfold roundMagnitude
  rw [binaryExponent_natCast n h]
  have hL : Nat.log 2 n < 53 := Nat.log_lt_of_lt_pow (Nat.pos_iff_ne_zero.mp h) hn
  have hmax : max ((Nat.log 2 n : Nat) : Int) (-1022) = (Nat.log 2 n : Int) := by
    apply max_eq_left
    omega
  rw [hmax]
  obtain ⟨j, hj⟩ : ∃ j : Nat, Nat.log 2 n + j = 52 := ⟨52 - Nat.log 2 n, by omega⟩
  have hexp : ((Nat.log 2 n : Nat) : Int) - 52 = -(j : Int) := by omega
  rw [hexp]
  have hdiv : (n : ℚ) / (2 : ℚ) ^ (-(j : Int)) = ((n * 2 ^ j : Nat) : ℚ) := by
    rw [zpow_neg, zpow_natCast, div_inv_eq_mul]
    push_cast
    ring
  dsimp only
  rw [hdiv, roundHalfToEven_natCast]
  have hv : (((n * 2 ^ j : Nat) : Int) : ℚ) * (2 : ℚ) ^ (-(j : Int)) = (n : ℚ) := by
    rw [zpow_neg, zpow_natCast]
    push_cast
    field_simp
  rw [hv]
  have hlt : (n : ℚ) < (2 : ℚ) ^ (1024 : Nat) := by
    have h53 : (n : ℚ) < (2 : ℚ) ^ (53 : Nat) := by exact_mod_cast hn
    exact lt_of_lt_of_le h53 (pow_le_pow_right₀ (by norm_num) (by norm_num))
  simp only [hlt, if_true]

theorem toBinary64_natCast (n : Nat) (hn : n < 2 ^ 53) :
    toBinary64 false (n : ℚ) = JSNumber.ofNat n := by
  unfold toBinary64 JSNumber.ofNat
  by_cases h0 : n = 0
  · subst h0
    simp
  · have hq : ¬ ((n : ℚ) = 0) := by exact_mod_cast h0
    rw [if_neg hq, roundMagnitude_natCast n (Nat.pos_of_ne_zero h0) hn]
    simp [hq]

/-! ## Decimal digits: `Number::toString` followed by `StringToNumber` -/

theorem digitValue_digitChar (d : Nat) (h : d < 10) :
    digitValue 10 (Nat.digitChar d) = some d := by
  interval_cases d <;> rfl

theorem digitsValue_append (r : Nat) (xs ys : List Char) (a : Nat) :
    digitsValue r (xs ++ ys) a = (digitsValue r xs a).bind (digitsValue r ys) := by
  induction xs generalizing a with
  | nil => simp [digitsValue]
  | cons c cs ih =>
    simp only [List.cons_append, digitsValue]
    cases digitValue r c <;> simp [ih]

theorem toDigitsCore_acc (fuel n : Nat) (acc : List Char) :
    Nat.toDigitsCore 10 fuel n acc = Nat.toDigitsCore 10 fuel n [] ++ acc := by
  induction fuel generalizing n acc with
  | zero => simp [Nat.toDigitsCore]
  | succ f ih =>
    simp only [Nat.toDigitsCore]
    split
    · simp
    · rw [ih (n / 10) (Nat.digitChar (n % 10) :: acc), ih (n / 10) [Nat.digitChar (n % 10)]]
      simp

theorem toDigitsCore_isNumeral (fuel n : Nat) (h : n < fuel) :
    IsNumeral (Nat.toDigitsCore 10 fuel n []) n := by
  induction fuel generalizing n with
  | zero => omega
  | succ f ih =>
    have hd : digitValue 10 (Nat.digitChar (n % 10)) = some (n % 10) :=
      digitValue_digitChar _ (Nat.mod_lt _ (by decide))
    simp only [Nat.toDigitsCore]
    split
    · rename_i h0
      have hn : n % 10 = n := by omega
      rw [hn] at hd ⊢
      refine ⟨by simp, ?_, ?_⟩
      · intro c hc
        simp only [List.mem_singleton] at hc
        subst hc
        simp [isDecimalDigit, hd]
      · simp [digitsValue, hd]
    · rename_i h0
      obtain ⟨h1, h2, h3⟩ := ih (n / 10) (by omega)
      rw [toDigitsCore_acc]
      refine ⟨by simp, ?_, ?_⟩
      · intro c hc
        rcases List.mem_append.mp hc with hc | hc
        · exact h2 c hc
        · simp only [List.mem_singleton] at hc
          subst hc
          simp [isDecimalDigit, hd]
      · rw [digitsValue_append, h3]
        simp only [Option.some_bind, digitsValue, hd]
        congr 1
        omega

theorem decimalDigits_isNumeral (n : Nat) : IsNumeral (decimalDigits n) n :=
  toDigitsCore_isNumeral (n + 1) n (Nat.lt_succ_self n)

theorem numberToString_of_lt (n : Nat) (hn : n < 2 ^ 53) :
    numberToString n = String.mk (decimalDigits n) := by
  unfold numberToString
  rw [if_pos hn]


theorem isDecimalDigit_range (c : Char) (h : isDecimalDigit c = true) :
    48 ≤ c.toNat ∧ c.toNat ≤ 57 := by
  unfold isDecimalDigit digitValue at h
  by_cases h1 : 48 ≤ c.toNat ∧ c.toNat ≤ 57
  · exact h1
  · exfalso
    simp only [h1, if_false] at h
    by_cases h2 : 97 ≤ c.toNat ∧ c.toNat ≤ 102
    · simp only [h2, and_self, if_true] at h
      have : ¬ (c.toNat - 87 < 10) := by omega
      simp [this] at h
    · simp only [h2, if_false] at h
      by_cases h3 : 65 ≤ c.toNat ∧ c.toNat ≤ 70
      · simp only [h3, and_self, if_true] at h
        have : ¬ (c.toNat - 55 < 10) := by omega
        simp [this] at h
      · simp [h3] at h

theorem not_white_of_isDecimalDigit (c : Char) (h : isDecimalDigit c = true) :
    isStrWhiteSpaceChar c = false := by
  have hr := isDecimalDigit_range c h
  simp only [isStrWhiteSpaceChar, decide_eq_false_iff_not, List.mem_cons, List.mem_singleton,
    List.not_mem_nil, or_false, not_or]
  omega

theorem dropWhile_eq_self_of_head {p : Char → Bool} (c : Char) (cs : List Char)
    (h : p c = false) : (c :: cs).dropWhile p = c :: cs := by
  simp [List.dropWhile, h]

theorem toNat_ne_of_isDecimalDigit (c d : Char) (h : isDecimalDigit c = true)
    (hd : d.toNat < 48 ∨ 57 < d.toNat) : c ≠ d := by
  intro hcd
  have hr := isDecimalDigit_range c h
  rw [hcd] at hr
  omega

theorem parseUnsignedDecimal_of_numeral (ds : List Char) (n : Nat) (h : IsNumeral ds n) :
    parseUnsignedDecimal ds = some (n : ℚ) := by
  obtain ⟨hne, hall, hval⟩ := h
  have ht : ds.takeWhile isDecimalDigit = ds := by
    rw [List.takeWhile_eq_self_iff]
    exact hall
  have hdrop : ds.dropWhile isDecimalDigit = [] := by
    rw [List.dropWhile_eq_nil_iff]
    exact hall
  unfold parseUnsignedDecimal
  simp only [ht, hdrop, hne, false_and, if_false, List.append_nil, hval, parseExponentPart]
  simp


/-! ## Rounding on integers agrees with rounding on rationals -/

theorem toDigitsCore_two_length (fuel n : Nat) (acc : List Char) (h : n < fuel) :
    (Nat.toDigitsCore 2 fuel n acc).length = Nat.log 2 n + 1 + acc.length := by
  induction fuel generalizing n acc with
  | zero => omega
  | succ f ih =>
    simp only [Nat.toDigitsCore]
    split
    · rename_i h0
      have hn : n < 2 := by omega
      rw [Nat.log_of_lt hn]
      simp
      omega
    · rename_i h0
      have hn : 2 ≤ n := by omega
      rw [ih (n / 2) _ (by omega), Nat.log_of_one_lt_of_le (by decide) hn]
      simp
      omega

theorem binaryLength (n : Nat) : (Nat.toDigits 2 n).length = Nat.log 2 n + 1 := by
  unfold Nat.toDigits
  rw [toDigitsCore_two_length (n + 1) n [] (Nat.lt_succ_self n)]
  rfl

/-- Rounding a quotient of natural numbers to the nearest integer, ties to even,
from the integer quotient and remainder. -/
theorem roundHalfToEven_div (m d : Nat) (hd : 0 < d) :
    roundHalfToEven ((m : ℚ) / (d : ℚ)) =
      ((if 2 * (m % d) < d then m / d
        else if d < 2 * (m % d) then m / d + 1
        else if (m / d) % 2 = 0 then m / d else m / d + 1 : Nat) : Int) := by
  have hdq : (0 : ℚ) < (d : ℚ) := by exact_mod_cast hd
  have hm : (m : ℚ) = (d : ℚ) * ((m / d : Nat) : ℚ) + ((m % d : Nat) : ℚ) := by
    exact_mod_cast (Nat.div_add_mod m d).symm
  have hr : ((m % d : Nat) : ℚ) < (d : ℚ) := by exact_mod_cast Nat.mod_lt m hd
  have hr0 : (0 : ℚ) ≤ ((m % d : Nat) : ℚ) := by positivity
  have ht : (m : ℚ) / (d : ℚ) = ((m / d : Nat) : ℚ) + ((m % d : Nat) : ℚ) / (d : ℚ) := by
    rw [hm]
    field_simp
    ring
  have hfrac0 : (0 : ℚ) ≤ ((m % d : Nat) : ℚ) / (d : ℚ) := div_nonneg hr0 hdq.le
  have hfrac1 : ((m % d : Nat) : ℚ) / (d : ℚ) < 1 := (div_lt_one hdq).mpr hr
  have hfloor : ⌊(m : ℚ) / (d : ℚ)⌋ = ((m / d : Nat) : Int) := by
    rw [Int.floor_eq_iff, ht, Int.cast_natCast]
    constructor
    · linarith
    · linarith
  have hsub : (m : ℚ) / (d : ℚ) - (((m / d : Nat) : Int) : ℚ)
      = ((m % d : Nat) : ℚ) / (d : ℚ) := by
    rw [ht, Int.cast_natCast]
    ring
  have hc1 : (((m % d : Nat) : ℚ) / (d : ℚ) < 1 / 2) ↔ 2 * (m % d) < d := by
    rw [div_lt_iff₀ hdq]
    constructor
    · intro h
      have h' : ((2 * (m % d) : Nat) : ℚ) < ((d : Nat) : ℚ) := by push_cast; linarith
      exact Nat.cast_lt.mp h'
    · intro h
      have h' : ((2 * (m % d) : Nat) : ℚ) < ((d : Nat) : ℚ) := Nat.cast_lt.mpr h
      push_cast at h'
      linarith
  have hc2 : (1 / 2 < ((m % d : Nat) : ℚ) / (d : ℚ)) ↔ d < 2 * (m % d) := by
    rw [lt_div_iff₀ hdq]
    constructor
    · intro h
      have h' : ((d : Nat) : ℚ) < ((2 * (m % d) : Nat) : ℚ) := by push_cast; linarith
      exact Nat.cast_lt.mp h'
    · intro h
      have h' : ((d : Nat) : ℚ) < ((2 * (m % d) : Nat) : ℚ) := Nat.cast_lt.mpr h
      push_cast at h'
      linarith
  have hc3 : (((m / d : Nat) : Int) % 2 = 0) ↔ (m / d) % 2 = 0 := by omega
  unfold roundHalfToEven
  rw [hfloor, hsub]
  simp only [hc1, hc2, hc3]
  split_ifs <;> simp



theorem pow_256_4 : ((2 : Nat) ^ 256) ^ 4 = 2 ^ 1024 := by
  rw [← pow_mul]

theorem roundNat_of_lt (n : Nat) (h : n < 2 ^ 53) : roundNat n = some n := by
  have hlen : (Nat.toDigits 2 n).length - 53 = 0 := by
    rw [binaryLength]
    by_cases h0 : n = 0
    · subst h0
      simp
    · have := Nat.log_lt_of_lt_pow h0 h
      omega
  have hbig : n < ((2 : Nat) ^ 256) ^ 4 := by
    rw [pow_256_4]
    exact lt_of_lt_of_le h (pow_le_pow_right₀ (by norm_num) (by norm_num))
  unfold roundNat
  simp only [hlen, pow_zero, Nat.div_one, Nat.mod_one, mul_zero, Nat.lt_one_iff,
    if_true, mul_one, hbig]

theorem roundMagnitude_of_roundNat (M N : Nat) (hM : 2 ^ 53 ≤ M) (h : roundNat M = some N) :
    roundMagnitude (M : ℚ) = some (N : ℚ) := by
  have hpos : 0 < M := lt_of_lt_of_le (by positivity) hM
  have hL : 53 ≤ Nat.log 2 M := Nat.le_log_of_pow_le (by decide) hM
  obtain ⟨sh, hsh⟩ : ∃ sh : Nat, Nat.log 2 M = sh + 52 := ⟨Nat.log 2 M - 52, by omega⟩
  have hshift : (Nat.toDigits 2 M).length - 53 = sh := by
    rw [binaryLength]
    omega
  unfold roundNat at h
  rw [hshift] at h
  dsimp only at h
  unfold roundMagnitude
  rw [binaryExponent_natCast M hpos]
  have hmax : max ((Nat.log 2 M : Nat) : Int) (-1022) - 52 = (sh : Int) := by
    rw [max_eq_left (by omega)]
    omega
  rw [hmax]
  have hulp : (2 : ℚ) ^ ((sh : Nat) : Int) = ((2 ^ sh : Nat) : ℚ) := by
    rw [zpow_natCast]
    push_cast
    rfl
  dsimp only
  rw [hulp, roundHalfToEven_div M (2 ^ sh) (by positivity)]
  generalize (if 2 * (M % 2 ^ sh) < 2 ^ sh then M / 2 ^ sh
      else if 2 ^ sh < 2 * (M % 2 ^ sh) then M / 2 ^ sh + 1
      else if M / 2 ^ sh % 2 = 0 then M / 2 ^ sh else M / 2 ^ sh + 1) = R at h ⊢
  by_cases hlt : R * 2 ^ sh < (2 ^ 256) ^ 4
  · rw [if_pos hlt] at h
    simp only [Option.some.injEq] at h
    have hv : ((R : Int) : ℚ) * ((2 ^ sh : Nat) : ℚ) = (N : ℚ) := by
      rw [← h, Int.cast_natCast]
      push_cast
      rfl
    rw [hv]
    have hN : (N : ℚ) < (2 : ℚ) ^ (1024 : Nat) := by
      have h2 : ((2 : ℚ) ^ (256 : Nat)) ^ (4 : Nat) = (2 : ℚ) ^ (1024 : Nat) := by
        rw [← pow_mul]
      rw [← h, ← h2]
      exact_mod_cast hlt
    rw [if_pos hN]
  · rw [if_neg hlt] at h
    cases h

/-- The Number value computed on integers is the one the rounding on rationals
gives. -/
theorem toBinary64_of_roundNat (M N : Nat) (h : roundNat M = some N) :
    toBinary64 false (M : ℚ) = JSNumber.ofNat N := by
  by_cases hM : M < 2 ^ 53
  · rw [roundNat_of_lt M hM] at h
    simp only [Option.some.injEq] at h
    subst h
    exact toBinary64_natCast M hM
  · have hM' : 2 ^ 53 ≤ M := not_lt.mp hM
    have hpos : 0 < M := lt_of_lt_of_le (by positivity) hM'
    have hq : ¬ ((M : ℚ) = 0) := by exact_mod_cast hpos.ne'
    unfold toBinary64 JSNumber.ofNat
    rw [if_neg hq, roundMagnitude_of_roundNat M N hM' h]
    by_cases hN : (N : ℚ) = 0
    · simp [hN]
    · simp [hN]

/-! ## `Number::toString` followed by `StringToNumber` -/

theorem nearer_eq (N : Nat) (a b : Nat × Nat) : nearer N a b = a ∨ nearer N a b = b := by
  unfold nearer
  dsimp only
  split
  · exact Or.inl rfl
  · split
    · exact Or.inr rfl
    · split
      · exact Or.inl rfl
      · exact Or.inr rfl

theorem foldl_nearer_mem (N : Nat) (cs : List (Nat × Nat)) (c : Nat × Nat) :
    cs.foldl (nearer N) c = c ∨ cs.foldl (nearer N) c ∈ cs := by
  induction cs generalizing c with
  | nil => exact Or.inl rfl
  | cons d ds ih =>
    simp only [List.foldl_cons, List.mem_cons]
    rcases ih (nearer N c d) with h | h
    · rcases nearer_eq N c d with h' | h'
      · exact Or.inl (h.trans h')
      · exact Or.inr (Or.inl (h.trans h'))
    · exact Or.inr (Or.inr h)

theorem digitCandidates_reads_back (N k : Nat) (c : Nat × Nat)
    (h : c ∈ digitCandidates N k) :
    roundNat (c.1 * 10 ^ c.2) = some N := by
  unfold digitCandidates at h
  simp only [List.mem_filter, decide_eq_true_eq] at h
  exact h.2.2.2

/-- The digits `Number::toString` prints read back as the number. -/
theorem shortestDigits_reads_back (N : Nat) (hN : IsNumber N) :
    roundNat ((shortestDigits N).1 * 10 ^ (shortestDigits N).2) = some N := by
  unfold shortestDigits
  dsimp only
  split
  · simpa using hN
  · rename_i c rest hfound
    have hmem : c ∈ (List.range (decimalDigits N).length).filterMap (fun i =>
        match digitCandidates N (i + 1) with
        | [] => none
        | c :: cs => some (cs.foldl (nearer N) c)) := by
      rw [hfound]
      exact List.mem_cons_self _ _
    rw [List.mem_filterMap] at hmem
    obtain ⟨i, _, hi⟩ := hmem
    split at hi
    · cases hi
    · rename_i d ds hd
      simp only [Option.some.injEq] at hi
      subst hi
      apply digitCandidates_reads_back N (i + 1)
      rw [hd]
      rcases foldl_nearer_mem N ds d with h | h
      · rw [h]
        exact List.mem_cons_self _ _
      · exact List.mem_cons_of_mem _ h

theorem isNumeralChar_cases (c : Char) (h : isNumeralChar c = true) :
    isDecimalDigit c = true ∨ c = '.' ∨ c = 'e' ∨ c = '+' := by
  simp only [isNumeralChar, Bool.or_eq_true, beq_iff_eq] at h
  tauto

theorem isNumeralChar_of_digit (c : Char) (h : isDecimalDigit c = true) :
    isNumeralChar c = true := by
  simp [isNumeralChar, h]

theorem not_white_of_isNumeralChar (c : Char) (h : isNumeralChar c = true) :
    isStrWhiteSpaceChar c = false := by
  rcases isNumeralChar_cases c h with h | h | h | h
  · exact not_white_of_isDecimalDigit c h
  · subst h; decide
  · subst h; decide
  · subst h; decide

theorem trimStrWhiteSpace_of_numeralChars (cs : List Char)
    (h : ∀ c ∈ cs, isNumeralChar c = true) : trimStrWhiteSpace cs = cs := by
  unfold trimStrWhiteSpace
  have h1 : cs.dropWhile isStrWhiteSpaceChar = cs := by
    cases cs with
    | nil => rfl
    | cons c cs =>
      exact dropWhile_eq_self_of_head c cs (not_white_of_isNumeralChar c (h c (by simp)))
  rw [h1]
  have h2 : cs.reverse.dropWhile isStrWhiteSpaceChar = cs.reverse := by
    cases hr : cs.reverse with
    | nil => rfl
    | cons c cs' =>
      have hc : c ∈ cs := by
        have : c ∈ cs.reverse := by rw [hr]; simp
        exact List.mem_reverse.mp this
      exact dropWhile_eq_self_of_head c cs' (not_white_of_isNumeralChar c (h c hc))
  rw [h2, List.reverse_reverse]

theorem parseNonDecimalIntegerLiteral_of_numeralChars (cs : List Char)
    (h : ∀ c ∈ cs, isNumeralChar c = true) : parseNonDecimalIntegerLiteral cs = none := by
  unfold parseNonDecimalIntegerLiteral
  split
  · rename_i p rest
    have hp : isNumeralChar p = true := h p (by simp)
    have e : p ≠ 'x' ∧ p ≠ 'X' ∧ p ≠ 'o' ∧ p ≠ 'O' ∧ p ≠ 'b' ∧ p ≠ 'B' := by
      rcases isNumeralChar_cases p hp with hd | hd | hd | hd
      · exact ⟨toNat_ne_of_isDecimalDigit p 'x' hd (by decide),
          toNat_ne_of_isDecimalDigit p 'X' hd (by decide),
          toNat_ne_of_isDecimalDigit p 'o' hd (by decide),
          toNat_ne_of_isDecimalDigit p 'O' hd (by decide),
          toNat_ne_of_isDecimalDigit p 'b' hd (by decide),
          toNat_ne_of_isDecimalDigit p 'B' hd (by decide)⟩
      · subst hd; decide
      · subst hd; decide
      · subst hd; decide
    simp [e.1, e.2.1, e.2.2.1, e.2.2.2.1, e.2.2.2.2.1, e.2.2.2.2.2]
  · rfl

theorem parseStrDecimalLiteral_of_head_digit (c : Char) (cs : List Char) (q : ℚ)
    (hc : isDecimalDigit c = true) (hq : parseUnsignedDecimal (c :: cs) = some q) :
    parseStrDecimalLiteral (c :: cs) = toBinary64 false q := by
  have e1 := toNat_ne_of_isDecimalDigit c '+' hc (by decide)
  have e2 := toNat_ne_of_isDecimalDigit c '-' hc (by decide)
  have e3 := toNat_ne_of_isDecimalDigit c 'I' hc (by decide)
  have hneg : (match c :: cs with
    | '-' :: _ => true
    | _ => false) = false := by
    split
    · rename_i heq
      simp only [List.cons.injEq] at heq
      exact absurd heq.1 e2
    · rfl
  have hbody : (match c :: cs with
    | '+' :: r => r
    | '-' :: r => r
    | _ => c :: cs) = c :: cs := by
    split
    · rename_i heq
      simp only [List.cons.injEq] at heq
      exact absurd heq.1 e1
    · rename_i heq
      simp only [List.cons.injEq] at heq
      exact absurd heq.1 e2
    · rfl
  have hinf : c :: cs ≠ "Infinity".data := by
    intro heq
    have : c = 'I' := by
      have := congrArg List.head? heq
      simpa using this
    exact e3 this
  unfold parseStrDecimalLiteral
  simp only [hneg, hbody, hinf, if_false, hq]

/-- The unary `+` on a string that starts with a digit, holds only numeral
characters and is a decimal literal of value `q`. -/
theorem stringToNumber_of_literal (c : Char) (cs : List Char) (q : ℚ)
    (hc : isDecimalDigit c = true) (hall : ∀ x ∈ c :: cs, isNumeralChar x = true)
    (hq : parseUnsignedDecimal (c :: cs) = some q) :
    stringToNumber (String.mk (c :: cs)) = toBinary64 false q := by
  unfold stringToNumber
  simp only [trimStrWhiteSpace_of_numeralChars _ hall,
    parseNonDecimalIntegerLiteral_of_numeralChars _ hall,
    parseStrDecimalLiteral_of_head_digit c cs q hc hq]

theorem isNumeral_append_zeros (ds : List Char) (s j : Nat) (h : IsNumeral ds s) :
    IsNumeral (ds ++ List.replicate j '0') (s * 10 ^ j) := by
  induction j with
  | zero => simpa using h
  | succ j ih =>
    obtain ⟨h1, h2, h3⟩ := ih
    rw [List.replicate_succ', ← List.append_assoc]
    refine ⟨by simp, ?_, ?_⟩
    · intro c hc
      rcases List.mem_append.mp hc with hc | hc
      · exact h2 c hc
      · simp only [List.mem_singleton] at hc
        subst hc
        decide
    · rw [digitsValue_append, h3]
      have h0 : digitValue 10 '0' = some 0 := by decide
      simp only [Option.some_bind, digitsValue, h0]
      congr 1
      rw [pow_succ]
      ring

theorem parseExponentPart_plus (dx : List Char) (x : Nat) (h : IsNumeral dx x) :
    parseExponentPart ('e' :: '+' :: dx) = some (x : Int) := by
  obtain ⟨h1, _, h3⟩ := h
  cases dx with
  | nil => exact absurd rfl h1
  | cons c cs =>
    simp [parseExponentPart, parseSignedInteger, parseDigits, h3]

/-- The literal `i.f e+x`: digits, a point, digits, and an exponent. -/
theorem parseUnsignedDecimal_point_exponent (ip fp dx : List Char) (m x : Nat)
    (hip : ∀ c ∈ ip, isDecimalDigit c = true) (hne : ip ≠ [])
    (hfp : ∀ c ∈ fp, isDecimalDigit c = true)
    (hm : digitsValue 10 (ip ++ fp) 0 = some m) (hx : IsNumeral dx x) :
    parseUnsignedDecimal (ip ++ '.' :: (fp ++ 'e' :: '+' :: dx))
      = some ((m : ℚ) * (10 : ℚ) ^ ((x : Int) - (fp.length : Int))) := by
  have hpoint : isDecimalDigit '.' = false := by decide
  have he : isDecimalDigit 'e' = false := by decide
  have ht : (ip ++ '.' :: (fp ++ 'e' :: '+' :: dx)).takeWhile isDecimalDigit = ip := by
    rw [List.takeWhile_append_of_pos hip, List.takeWhile_cons_of_neg (by simp [hpoint])]
    simp
  have hd : (ip ++ '.' :: (fp ++ 'e' :: '+' :: dx)).dropWhile isDecimalDigit
      = '.' :: (fp ++ 'e' :: '+' :: dx) := by
    rw [List.dropWhile_append_of_pos hip, List.dropWhile_cons_of_neg (by simp [hpoint])]
  have hft : (fp ++ 'e' :: '+' :: dx).takeWhile isDecimalDigit = fp := by
    rw [List.takeWhile_append_of_pos hfp, List.takeWhile_cons_of_neg (by simp [he])]
    simp
  have hfd : (fp ++ 'e' :: '+' :: dx).dropWhile isDecimalDigit = 'e' :: '+' :: dx := by
    rw [List.dropWhile_append_of_pos hfp, List.dropWhile_cons_of_neg (by simp [he])]
  unfold parseUnsignedDecimal
  simp only [ht, hd, hft, hfd, hne, false_and, if_false, hm, parseExponentPart_plus dx x hx]

/-- The literal `i e+x`: digits and an exponent. -/
theorem parseUnsignedDecimal_exponent (ip dx : List Char) (m x : Nat)
    (hip : ∀ c ∈ ip, isDecimalDigit c = true) (hne : ip ≠ [])
    (hm : digitsValue 10 ip 0 = some m) (hx : IsNumeral dx x) :
    parseUnsignedDecimal (ip ++ 'e' :: '+' :: dx) = some ((m : ℚ) * (10 : ℚ) ^ (x : Int)) := by
  have he : isDecimalDigit 'e' = false := by decide
  have ht : (ip ++ 'e' :: '+' :: dx).takeWhile isDecimalDigit = ip := by
    rw [List.takeWhile_append_of_pos hip, List.takeWhile_cons_of_neg (by simp [he])]
    simp
  have hd : (ip ++ 'e' :: '+' :: dx).dropWhile isDecimalDigit = 'e' :: '+' :: dx := by
    rw [List.dropWhile_append_of_pos hip, List.dropWhile_cons_of_neg (by simp [he])]
  unfold parseUnsignedDecimal
  simp only [ht, hd, hne, false_and, if_false]
  simp [hm, parseExponentPart_plus dx x hx]



theorem numeralChars_of_digits (ds : List Char) (h : ∀ c ∈ ds, isDecimalDigit c = true) :
    ∀ c ∈ ds, isNumeralChar c = true :=
  fun c hc => isNumeralChar_of_digit c (h c hc)

/-- The unary `+` on the digits of `s` followed by `j` zeros. -/
theorem stringToNumber_padded (s j : Nat) :
    stringToNumber (String.mk (decimalDigits s ++ List.replicate j '0'))
      = toBinary64 false ((s * 10 ^ j : Nat) : ℚ) := by
  have hnum := isNumeral_append_zeros (decimalDigits s) s j (decimalDigits_isNumeral s)
  have hq := parseUnsignedDecimal_of_numeral _ _ hnum
  obtain ⟨hne, hall, _⟩ := hnum
  cases hds : decimalDigits s ++ List.replicate j '0' with
  | nil => exact absurd hds hne
  | cons c cs =>
    rw [hds] at hall hq
    exact stringToNumber_of_literal c cs _ (hall c (by simp))
      (numeralChars_of_digits _ hall) hq

/-- The unary `+` on the exponential form of `s` times `10 ^ j`. -/
theorem stringToNumber_exponential (s j : Nat) (d : Char) (rest : List Char)
    (hds : decimalDigits s = d :: rest) :
    stringToNumber (if rest = []
        then String.mk (d :: 'e' :: '+' :: decimalDigits (rest.length + 1 + j - 1))
        else String.mk (d :: '.' :: rest ++ 'e' :: '+' :: decimalDigits (rest.length + 1 + j - 1)))
      = toBinary64 false ((s * 10 ^ j : Nat) : ℚ) := by
  obtain ⟨_, hall, hval⟩ := decimalDigits_isNumeral s
  rw [hds] at hall hval
  have hd : isDecimalDigit d = true := hall d (by simp)
  have hrest : ∀ c ∈ rest, isDecimalDigit c = true := fun c hc => hall c (by simp [hc])
  have hx := decimalDigits_isNumeral (rest.length + 1 + j - 1)
  have hxall : ∀ c ∈ decimalDigits (rest.length + 1 + j - 1), isNumeralChar c = true :=
    numeralChars_of_digits _ hx.2.1
  have hexp : ((rest.length + 1 + j - 1 : Nat) : Int) - (rest.length : Int) = (j : Int) := by
    omega
  have hvalue : (s : ℚ) * (10 : ℚ) ^ (j : Int) = ((s * 10 ^ j : Nat) : ℚ) := by
    rw [zpow_natCast]
    push_cast
    ring
  by_cases hr : rest = []
  · subst hr
    rw [if_pos rfl]
    have hq := parseUnsignedDecimal_exponent [d] _ s _ (by simpa using hd) (by simp)
      hval hx
    have hall' : ∀ c ∈ d :: 'e' :: '+' :: decimalDigits (([] : List Char).length + 1 + j - 1),
        isNumeralChar c = true := by
      intro c hc
      simp only [List.mem_cons] at hc
      rcases hc with hc | hc | hc | hc
      · subst hc; exact isNumeralChar_of_digit _ hd
      · subst hc; decide
      · subst hc; decide
      · exact hxall c hc
    rw [stringToNumber_of_literal d _ _ hd hall' hq]
    have hexp0 : ((([] : List Char).length + 1 + j - 1 : Nat) : Int) = (j : Int) := by
      simp
    rw [hexp0, hvalue]
  · rw [if_neg hr]
    have hq := parseUnsignedDecimal_point_exponent [d] rest _ s _ (by simpa using hd)
      (by simp) hrest hval hx
    have hshape : d :: '.' :: rest ++ 'e' :: '+' :: decimalDigits (rest.length + 1 + j - 1)
        = d :: ('.' :: (rest ++ 'e' :: '+' :: decimalDigits (rest.length + 1 + j - 1))) := by
      simp
    have hall' : ∀ c ∈ d :: ('.' :: (rest ++ 'e' :: '+' ::
        decimalDigits (rest.length + 1 + j - 1))), isNumeralChar c = true := by
      intro c hc
      simp only [List.mem_cons, List.mem_append] at hc
      rcases hc with hc | hc | hc | hc | hc | hc
      · subst hc; exact isNumeralChar_of_digit _ hd
      · subst hc; decide
      · exact isNumeralChar_of_digit _ (hrest c hc)
      · subst hc; decide
      · subst hc; decide
      · exact hxall c hc
    rw [hshape, stringToNumber_of_literal d _ _ hd hall' hq, hexp, hvalue]

/-- The unary `+` undoes `Number::toString` on every integer Number. -/
theorem stringToNumber_numberToString (N : Nat) (hN : IsNumber N) :
    stringToNumber (numberToString N) = JSNumber.ofNat N := by
  by_cases hlt : N < 2 ^ 53
  · have h := stringToNumber_padded N 0
    simp only [List.replicate_zero, List.append_nil, pow_zero, mul_one] at h
    rw [numberToString_of_lt N hlt, h]
    exact toBinary64_natCast N hlt
  · unfold numberToString
    rw [if_neg hlt, ← toBinary64_of_roundNat _ N (shortestDigits_reads_back N hN)]
    unfold numberToStringLarge
    dsimp only
    split
    · exact stringToNumber_padded _ _
    · split
      · rename_i hnil
        exact absurd hnil (decimalDigits_isNumeral _).1
      · rename_i d rest hds
        have hlen : (decimalDigits (shortestDigits N).1).length = rest.length + 1 := by
          rw [hds]; rfl
        rw [hlen]
        exact stringToNumber_exponential _ _ d rest hds

theorem isNumber_of_lt (n : Nat) (hn : n < 2 ^ 53) : IsNumber n :=
  roundNat_of_lt n hn

/-! ## The session store as a map -/

theorem lookup_filter_same (k : String) (es : List (String × String)) :
    (es.filter (fun e => e.1 != k)).lookup k = none := by
  induction es with
  | nil => rfl
  | cons e es ih =>
    obtain ⟨a, b⟩ := e
    by_cases h : a = k
    · have hb : (a != k) = false := by simp [h]
      rw [List.filter_cons_of_neg (by simp [hb])]
      exact ih
    · have hb : (a != k) = true := by simp [h]
      have hk : (k == a) = false := by simpa using fun h' => h h'.symm
      rw [List.filter_cons_of_pos (by simp [hb]), List.lookup_cons, hk]
      exact ih

theorem lookup_filter_other (k k' : String) (h : k' ≠ k) (es : List (String × String)) :
    (es.filter (fun e => e.1 != k)).lookup k' = es.lookup k' := by
  induction es with
  | nil => rfl
  | cons e es ih =>
    obtain ⟨a, b⟩ := e
    by_cases ha : a = k
    · have hb : (a != k) = false := by simp [ha]
      have hk : (k' == a) = false := by simpa [ha] using h
      rw [List.filter_cons_of_neg (by simp [hb]), List.lookup_cons, hk]
      exact ih
    · have hb : (a != k) = true := by simp [ha]
      rw [List.filter_cons_of_pos (by simp [hb]), List.lookup_cons, List.lookup_cons, ih]

theorem filter_eq_self_of_lookup_none (k : String) (es : List (String × String))
    (h : es.lookup k = none) : es.filter (fun e => e.1 != k) = es := by
  induction es with
  | nil => rfl
  | cons e es ih =>
    obtain ⟨a, b⟩ := e
    by_cases hk : k = a
    · have hk' : (k == a) = true := by simpa using hk
      rw [List.lookup_cons, hk'] at h
      cases h
    · have hk' : (k == a) = false := by simpa using hk
      rw [List.lookup_cons, hk'] at h
      have hb : (a != k) = true := by simpa using fun h' => hk h'.symm
      rw [List.filter_cons_of_pos (by simp [hb]), ih h]

theorem getItem_removeItem_same (s : Storage) (k : String) :
    (s.removeItem k).getItem k = none :=
  lookup_filter_same k s.entries

theorem getItem_removeItem_other (s : Storage) (k k' : String) (h : k' ≠ k) :
    (s.removeItem k).getItem k' = s.getItem k' :=
  lookup_filter_other k k' h s.entries

theorem removeItem_of_absent (s : Storage) (k : String) (h : s.getItem k = none) :
    s.removeItem k = s := by
  cases s with
  | mk es => simp only [Storage.removeItem, Storage.mk.injEq]; exact filter_eq_self_of_lookup_none k es h

theorem getItem_withItem_same (s : Storage) (k v : String) :
    (s.withItem k v).getItem k = some v := by
  simp [Storage.withItem, Storage.getItem, List.lookup]

theorem getItem_withItem_other (s : Storage) (k k' v : String) (h : k' ≠ k) :
    (s.withItem k v).getItem k' = s.getItem k' := by
  have hk : (k' == k) = false := by simpa using h
  simp only [Storage.withItem, Storage.getItem, List.lookup, hk]
  exact getItem_removeItem_other s k k' h

theorem removeItem_withItem (s : Storage) (k v : String) :
    (s.withItem k v).removeItem k = s.removeItem k := by
  simp [Storage.withItem, Storage.removeItem, List.filter]

theorem withItem_withItem (s : Storage) (k v1 v2 : String) :
    (s.withItem k v1).withItem k v2 = s.withItem k v2 := by
  unfold Storage.withItem
  rw [show (⟨(k, v1) :: (s.removeItem k).entries⟩ : Storage) = s.withItem k v1 from rfl,
    removeItem_withItem]

theorem entries_withItem_count (s : Storage) (k v : String) :
    ((s.withItem k v).entries.filter (fun e => e.1 == k)).length = 1 := by
  have h : (s.removeItem k).entries.filter (fun e => e.1 == k) = [] := by
    simp [Storage.removeItem, List.filter_filter]
  simp [Storage.withItem, List.filter, h]

theorem key_eq_iff (l1 l2 : Location) : key l1 = key l2 ↔ l1.pathname = l2.pathname := by
  unfold key
  constructor
  · intro h
    have h' := congrArg String.data h
    simp only [String.data_append] at h'
    exact String.ext (List.append_cancel_left h')
  · intro h
    rw [h]

/-! ## The two listeners, step by step -/

theorem toPixels_ofNat (n : Nat) : (JSNumber.ofNat n).toPixels = n := by
  unfold JSNumber.ofNat JSNumber.toPixels
  rw [Nat.floor_eq_iff (by positivity)]
  constructor
  · linarith
  · linarith

theorem ofNat_injective (a b : Nat) (h : JSNumber.ofNat a = JSNumber.ofNat b) : a = b := by
  unfold JSNumber.ofNat at h
  injection h with h
  exact_mod_cast h

theorem beforeunload_of_fits (k : String) (w : Window) (store : Storage)
    (hs : w.sessionStorage = some store)
    (h : (store.withItem k (numberToString w.scrollY)).size ≤ w.storageQuota) :
    beforeunload k w = ⟨none, w.withStore (store.withItem k (numberToString w.scrollY))⟩ := by
  simp [beforeunload, hs, Storage.setItem, h, Window.withStore]

theorem beforeunload_of_full (k : String) (w : Window) (store : Storage)
    (hs : w.sessionStorage = some store)
    (h : ¬ (store.withItem k (numberToString w.scrollY)).size ≤ w.storageQuota) :
    beforeunload k w = ⟨some JSException.quotaExceeded, w⟩ := by
  simp [beforeunload, hs, Storage.setItem, h]

theorem fits_of_thrown_none (k : String) (w : Window) (store : Storage)
    (hs : w.sessionStorage = some store) (hok : (beforeunload k w).thrown = none) :
    (store.withItem k (numberToString w.scrollY)).size ≤ w.storageQuota := by
  by_contra h
  rw [beforeunload_of_full k w store hs h] at hok
  cases hok

theorem load_present (k v : String) (w : Window) (store : Storage)
    (hs : w.sessionStorage = some store) (h : store.getItem k = some v) :
    load k w =
      ⟨none, { w with
        scrollX := 0
        scrollY := min (stringToNumber v).toPixels w.scrollMaxY
        scrollToCalls := w.scrollToCalls ++ [(JSNumber.ofNat 0, stringToNumber v)]
        sessionStorage := some (store.removeItem k) }⟩ := by
  simp [load, hs, h, Window.scrollTo, toPixels_ofNat]

theorem load_absent (k : String) (w : Window) (store : Storage)
    (hs : w.sessionStorage = some store) (h : store.getItem k = none) :
    load k w = ⟨none, w⟩ := by
  cases w
  simp only at hs
  subst hs
  simp [load, h, removeItem_of_absent store k h]

/-- The load listener on a store in which the key was last written with the
numeral of `N`. -/
theorem load_written (k : String) (N : Nat) (w : Window) (store : Storage)
    (hN : IsNumber N) (hs : w.sessionStorage = some (store.withItem k (numberToString N))) :
    load k w =
      ⟨none, { w with
        scrollX := 0
        scrollY := min N w.scrollMaxY
        scrollToCalls := w.scrollToCalls ++ [(JSNumber.ofNat 0, JSNumber.ofNat N)]
        sessionStorage := some (store.removeItem k) }⟩ := by
  rw [load_present k _ w _ hs (getItem_withItem_same store k _),
    stringToNumber_numberToString N hN, toPixels_ofNat, removeItem_withItem]

theorem capture_of_fits (k : String) (N : Nat) (store : Storage) (w : Window)
    (hfit : (store.withItem k (numberToString N)).size ≤ w.storageQuota) :
    beforeunload k ((w.withStore store).atOffset N) =
      ⟨none, (w.atOffset N).withStore (store.withItem k (numberToString N))⟩ :=
  beforeunload_of_fits k ((w.withStore store).atOffset N) store rfl hfit

theorem capture_of_full (k : String) (N : Nat) (store : Storage) (w : Window)
    (hfull : ¬ (store.withItem k (numberToString N)).size ≤ w.storageQuota) :
    beforeunload k ((w.withStore store).atOffset N) =
      ⟨some JSException.quotaExceeded, (w.atOffset N).withStore store⟩ :=
  beforeunload_of_full k ((w.withStore store).atOffset N) store rfl hfull

theorem fits_of_capture_ok (k : String) (N : Nat) (store : Storage) (w : Window)
    (hok : (beforeunload k ((w.withStore store).atOffset N)).thrown = none) :
    (store.withItem k (numberToString N)).size ≤ w.storageQuota :=
  fits_of_thrown_none k ((w.withStore store).atOffset N) store rfl hok

/-- The restore on the page view that follows an accepted capture. -/
theorem load_after_capture (k : String) (N : Nat) (store : Storage) (w fresh : Window)
    (hN : IsNumber N)
    (hfit : (store.withItem k (numberToString N)).size ≤ w.storageQuota) :
    load k (fresh.after (beforeunload k ((w.withStore store).atOffset N)).window) =
      ⟨none, { fresh with
        scrollX := 0
        scrollY := min N fresh.scrollMaxY
        scrollToCalls := fresh.scrollToCalls ++ [(JSNumber.ofNat 0, JSNumber.ofNat N)]
        sessionStorage := some (store.removeItem k) }⟩ := by
  rw [capture_of_fits k N store w hfit]
  exact load_written k N _ store hN rfl

/-! ## The claims -/

/-- C1, as stated, fails in two ways.  On a page with 1200 pixels to scroll, the
restore of an offset of 4000 calls `scrollTo` with `(0, 4000)` and the viewport
ends at 1200.  With a session store whose quota is used up, the capture ends
with `QuotaExceededError`, nothing is stored, and the restore makes no
`scrollTo` call at all. -/
theorem capture_then_restore_can_miss_offset :
    (beforeunload (key itemsPage) (((freshWindow []).withStore ⟨[]⟩).atOffset 4000)).thrown
      = none ∧
    (load (key itemsPage) ((shortWindow []).after
      (beforeunload (key itemsPage)
        (((freshWindow []).withStore ⟨[]⟩).atOffset 4000)).window)).window.scrollToCalls
      = [(JSNumber.ofNat 0, JSNumber.ofNat 4000)] ∧
    (load (key itemsPage) ((shortWindow []).after
      (beforeunload (key itemsPage)
        (((freshWindow []).withStore ⟨[]⟩).atOffset 4000)).window)).window.scrollY
      = 1200 ∧
    (beforeunload (key itemsPage) (((quotaWindow 0 []).withStore ⟨[]⟩).atOffset 4000)).thrown
      = some JSException.quotaExceeded ∧
    (load (key itemsPage) ((freshWindow []).after
      (beforeunload (key itemsPage)
        (((quotaWindow 0 []).withStore ⟨[]⟩).atOffset 4000)).window)).window.scrollToCalls
      = [] ∧
    (load (key itemsPage) ((freshWindow []).after
      (beforeunload (key itemsPage)
        (((quotaWindow 0 []).withStore ⟨[]⟩).atOffset 4000)).window)).window.scrollY
      = 0 := by
  have h := load_after_capture (key itemsPage) 4000 ⟨[]⟩ (freshWindow []) (shortWindow [])
    (by decide) (by decide)
  refine ⟨by decide, ?_, ?_, by decide, by decide, by decide⟩
  · rw [h]
    rfl
  · rw [h]
    rfl

/-- C1, amended.  Round trip: for every offset N (an integer Number, as
`window.scrollY` is), when the capture at path P ends without an exception, the
restore on the next page view at P ends without an exception, makes exactly one
`scrollTo` call, with arguments `(0, N)` unchanged, and leaves the viewport at
`(0, N)` clamped to the maximal scroll offset of the new page. -/
theorem capture_then_restore_scrolls_to_offset (l : Location) (N : Nat) (store : Storage)
    (w fresh : Window) (hN : IsNumber N)
    (hok : (beforeunload (key l) ((w.withStore store).atOffset N)).thrown = none) :
    (load (key l)
      (fresh.after (beforeunload (key l) ((w.withStore store).atOffset N)).window)).thrown
        = none ∧
    (load (key l)
      (fresh.after (beforeunload (key l) ((w.withStore store).atOffset N)).window)).window.scrollToCalls
        = fresh.scrollToCalls ++ [(JSNumber.ofNat 0, JSNumber.ofNat N)] ∧
    (load (key l)
      (fresh.after (beforeunload (key l) ((w.withStore store).atOffset N)).window)).window.scrollX
        = 0 ∧
    (load (key l)
      (fresh.after (beforeunload (key l) ((w.withStore store).atOffset N)).window)).window.scrollY
        = min N fresh.scrollMaxY := by
  have hfit := fits_of_capture_ok (key l) N store w hok
  rw [load_after_capture (key l) N store w fresh hN hfit]
  exact ⟨rfl, rfl, rfl, rfl⟩

/-- Witness of the amended C1: offset 842 captured at `/admin/items` and restored
on a long page. -/
theorem capture_then_restore_scrolls_to_offset_witness :
    IsNumber 842 ∧
    (beforeunload (key itemsPage) (((freshWindow []).withStore ⟨[]⟩).atOffset 842)).thrown
      = none ∧
    (load (key itemsPage) ((freshWindow []).after
      (beforeunload (key itemsPage)
        (((freshWindow []).withStore ⟨[]⟩).atOffset 842)).window)).window.scrollY
      = 842 :=
  ⟨by decide, by decide,
   (capture_then_restore_scrolls_to_offset itemsPage 842 ⟨[]⟩ (freshWindow []) (freshWindow [])
      (by decide) (by decide)).2.2.2⟩

/-- C2. One-shot law: when the key of P is present, one run of the load listener
at P ends normally after one `scrollTo` call, and a second run with no capture
in between returns the page state it was given, also if the user scrolled in
between: no `scrollTo` call, same viewport, same store. -/
theorem second_restore_is_noop (l : Location) (store : Storage) (v : String) (w : Window)
    (x y : Nat) (h : store.getItem (key l) = some v) :
    (load (key l) (w.withStore store)).thrown = none ∧
    (load (key l) (w.withStore store)).window.scrollToCalls
      = w.scrollToCalls ++ [(JSNumber.ofNat 0, stringToNumber v)] ∧
    load (key l) (load (key l) (w.withStore store)).window
      = ⟨none, (load (key l) (w.withStore store)).window⟩ ∧
    load (key l) ((load (key l) (w.withStore store)).window.scrolledBy x y)
      = ⟨none, (load (key l) (w.withStore store)).window.scrolledBy x y⟩ := by
  rw [load_present (key l) v (w.withStore store) store rfl h]
  have habs := getItem_removeItem_same store (key l)
  refine ⟨rfl, rfl, ?_, ?_⟩
  · exact load_absent (key l) _ (store.removeItem (key l)) rfl habs
  · exact load_absent (key l) _ (store.removeItem (key l)) rfl habs

/-- Witness of C2 at the store `{"adminScroll:/admin/items": "842"}`. -/
theorem second_restore_is_noop_witness :
    (Storage.mk [("adminScroll:/admin/items", "842")]).getItem (key itemsPage) = some "842" ∧
    load (key itemsPage)
      (load (key itemsPage) (freshWindow [("adminScroll:/admin/items", "842")])).window
      = ⟨none, (load (key itemsPage) (freshWindow [("adminScroll:/admin/items", "842")])).window⟩ :=
  ⟨by decide,
   (second_restore_is_noop itemsPage ⟨[("adminScroll:/admin/items", "842")]⟩ "842"
      (freshWindow []) 0 0 (by decide)).2.2.1⟩

/-- C3. Absent-entry law: when the store holds no entry under the key of P, the
load listener at P returns the page state it was given: no exception, no
`scrollTo` call, same viewport, same store. -/
theorem restore_absent_is_noop (l : Location) (store : Storage) (w : Window)
    (h : store.getItem (key l) = none) :
    load (key l) (w.withStore store) = ⟨none, w.withStore store⟩ :=
  load_absent (key l) (w.withStore store) store rfl h

/-- Witness of C3: no capture ever happened for `/admin/reports`. -/
theorem restore_absent_is_noop_witness :
    (Storage.mk [("adminScroll:/admin/items", "842")]).getItem (key reportsPage) = none ∧
    load (key reportsPage) (freshWindow [("adminScroll:/admin/items", "842")])
      = ⟨none, freshWindow [("adminScroll:/admin/items", "842")]⟩ :=
  ⟨by decide,
   restore_absent_is_noop reportsPage ⟨[("adminScroll:/admin/items", "842")]⟩
     (freshWindow []) (by decide)⟩

/-- C4. Distinct paths are isolated: for paths P1 ≠ P2 the two keys differ; a
capture at P1 leaves the entry under the key of P2 as it was; and the load
listener at P2 ends the same way, makes the same `scrollTo` calls, leaves the
same viewport and the same (absent) entry for P2 whether or not the capture at
P1 happened before it. -/
theorem distinct_paths_isolated (l1 l2 : Location) (N : Nat) (store : Storage)
    (w fresh : Window) (h : l1.pathname ≠ l2.pathname) :
    key l1 ≠ key l2 ∧
    (beforeunload (key l1) ((w.withStore store).atOffset N)).window.storedItem (key l2)
      = store.getItem (key l2) ∧
    (load (key l2)
      (fresh.after (beforeunload (key l1) ((w.withStore store).atOffset N)).window)).thrown
      = (load (key l2) (fresh.withStore store)).thrown ∧
    (load (key l2)
      (fresh.after (beforeunload (key l1) ((w.withStore store).atOffset N)).window)).window.scrollToCalls
      = (load (key l2) (fresh.withStore store)).window.scrollToCalls ∧
    (load (key l2)
      (fresh.after (beforeunload (key l1) ((w.withStore store).atOffset N)).window)).window.scrollX
      = (load (key l2) (fresh.withStore store)).window.scrollX ∧
    (load (key l2)
      (fresh.after (beforeunload (key l1) ((w.withStore store).atOffset N)).window)).window.scrollY
      = (load (key l2) (fresh.withStore store)).window.scrollY ∧
    (load (key l2)
      (fresh.after (beforeunload (key l1) ((w.withStore store).atOffset N)).window)).window.storedItem
        (key l2)
      = (load (key l2) (fresh.withStore store)).window.storedItem (key l2) := by
  have hk : key l1 ≠ key l2 := fun e => h ((key_eq_iff l1 l2).mp e)
  by_cases hfit : (store.withItem (key l1) (numberToString N)).size ≤ w.storageQuota
  · have hget : (store.withItem (key l1) (numberToString N)).getItem (key l2)
        = store.getItem (key l2) :=
      getItem_withItem_other store (key l1) (key l2) _ (Ne.symm hk)
    rw [capture_of_fits (key l1) N store w hfit]
    refine ⟨hk, hget, ?_⟩
    cases hv : store.getItem (key l2) with
    | none =>
      rw [hv] at hget
      rw [load_absent (key l2) _ _ rfl hget, load_absent (key l2) _ _ rfl hv]
      simp [Window.storedItem, Window.withStore, Window.after, Window.atOffset, hget, hv]
    | some v =>
      rw [hv] at hget
      rw [load_present (key l2) v _ _ rfl hget, load_present (key l2) v _ _ rfl hv]
      simp [Window.storedItem, Window.withStore, Window.after, Window.atOffset,
        getItem_removeItem_same]
  · rw [capture_of_full (key l1) N store w hfit]
    exact ⟨hk, rfl, rfl, rfl, rfl, rfl, rfl⟩

/-- Witness of C4: a capture at `/admin/items` and a restore at `/admin/reports`. -/
theorem distinct_paths_isolated_witness :
    itemsPage.pathname ≠ reportsPage.pathname ∧
    (beforeunload (key itemsPage)
      (((freshWindow []).withStore ⟨[("adminScroll:/admin/reports", "77")]⟩).atOffset
        842)).window.storedItem (key reportsPage)
      = (Storage.mk [("adminScroll:/admin/reports", "77")]).getItem (key reportsPage) :=
  ⟨by decide,
   (distinct_paths_isolated itemsPage reportsPage 842 ⟨[("adminScroll:/admin/reports", "77")]⟩
      (freshWindow []) (freshWindow []) (by decide)).2.1⟩

/-- C5. Restore always consumes the entry: whatever the store holds, the load
listener at P ends normally, the store then has no entry under the key of P,
and the entry under every other key is as before.  In particular the store
`{"adminScroll:/admin/items": "842"}` is empty after a restore at
`/admin/items`. -/
theorem restore_consumes_entry (l : Location) (store : Storage) (w : Window) :
    (load (key l) (w.withStore store)).thrown = none ∧
    (load (key l) (w.withStore store)).window.sessionStorage
      = some (store.removeItem (key l)) ∧
    (load (key l) (w.withStore store)).window.storedItem (key l) = none ∧
    (load (key l) (w.withStore store)).window.entryCount (key l) = 0 ∧
    (∀ k, k ≠ key l →
      (load (key l) (w.withStore store)).window.storedItem k = store.getItem k) ∧
    (load (key itemsPage)
      (freshWindow [("adminScroll:/admin/items", "842")])).window.sessionStorage
      = some ⟨[]⟩ := by
  have hstore : (load (key l) (w.withStore store)).thrown = none ∧
      (load (key l) (w.withStore store)).window.sessionStorage
        = some (store.removeItem (key l)) := by
    cases hv : store.getItem (key l) with
    | none =>
      rw [load_absent (key l) _ _ rfl hv]
      simp [Window.withStore, removeItem_of_absent store _ hv]
    | some v =>
      rw [load_present (key l) v _ _ rfl hv]
      simp
  refine ⟨hstore.1, hstore.2, ?_, ?_, ?_, by decide⟩
  · simp [Window.storedItem, hstore.2, getItem_removeItem_same]
  · simp [Window.entryCount, hstore.2, Storage.removeItem, List.filter_filter]
  · intro k hk
    simp [Window.storedItem, hstore.2, getItem_removeItem_other store (key l) k hk]

/-- C6, as stated, fails in two ways.  On a session store whose quota is used up,
the capture at `/admin/items` with offset 842 ends with `QuotaExceededError`
and the store holds no entry under the key afterwards.  And the value written
is `Number::toString` of the offset, which is not the decimal string of every
integer: for the Numbers `10 ^ 21` and `2 ^ 60` the store holds `"1e+21"` and
`"1152921504606847000"`. -/
theorem capture_can_be_refused :
    (beforeunload (key itemsPage) (((quotaWindow 0 []).withStore ⟨[]⟩).atOffset 842)).thrown
      = some JSException.quotaExceeded ∧
    (beforeunload (key itemsPage)
      (((quotaWindow 0 []).withStore ⟨[]⟩).atOffset 842)).window.storedItem
        ("adminScroll:" ++ itemsPage.pathname) = none ∧
    IsNumber (10 ^ 21) ∧
    (beforeunload (key itemsPage)
      (((freshWindow []).withStore ⟨[]⟩).atOffset (10 ^ 21))).window.storedItem
        ("adminScroll:" ++ itemsPage.pathname) = some "1e+21" ∧
    Nat.repr (10 ^ 21) = "1000000000000000000000" ∧
    IsNumber (2 ^ 60) ∧
    (beforeunload (key itemsPage)
      (((freshWindow []).withStore ⟨[]⟩).atOffset (2 ^ 60))).window.storedItem
        ("adminScroll:" ++ itemsPage.pathname) = some "1152921504606847000" ∧
    Nat.repr (2 ^ 60) = "1152921504606846976" := by
  decide

/-- C6, amended.  Capture postcondition and frame: for an offset N below `2 ^ 53`,
when the beforeunload listener at P with the viewport at vertical offset N ends
without an exception, it leaves the decimal numeral of N under the key
`"adminScroll:" ++ P`, leaves the entry under every other key as it was, and
makes no `scrollTo` call and no change to the viewport.  Path `/admin/items`
and offset 842 give the key `"adminScroll:/admin/items"` and the value
`"842"`. -/
theorem capture_postcondition (l : Location) (N : Nat) (store : Storage) (w : Window)
    (hN : N < 2 ^ 53)
    (hok : (beforeunload (key l) ((w.withStore store).atOffset N)).thrown = none) :
    (beforeunload (key l) ((w.withStore store).atOffset N)).window.storedItem
      ("adminScroll:" ++ l.pathname) = some (Nat.repr N) ∧
    IsNumeral (Nat.repr N).data N ∧
    (∀ k, k ≠ key l →
      (beforeunload (key l) ((w.withStore store).atOffset N)).window.storedItem k
        = store.getItem k) ∧
    (beforeunload (key l) ((w.withStore store).atOffset N)).window.scrollX = w.scrollX ∧
    (beforeunload (key l) ((w.withStore store).atOffset N)).window.scrollY = N ∧
    (beforeunload (key l) ((w.withStore store).atOffset N)).window.scrollToCalls
      = w.scrollToCalls ∧
    (beforeunload (key itemsPage) ((freshWindow []).atOffset 842)).window.sessionStorage
      = some ⟨[("adminScroll:/admin/items", "842")]⟩ := by
  have hfit := fits_of_capture_ok (key l) N store w hok
  have hrepr : numberToString N = Nat.repr N := numberToString_of_lt N hN
  rw [capture_of_fits (key l) N store w hfit, hrepr]
  refine ⟨?_, decimalDigits_isNumeral N, ?_, rfl, rfl, rfl, by decide⟩
  · exact getItem_withItem_same store (key l) (Nat.repr N)
  · intro k hk
    exact getItem_withItem_other store (key l) k _ hk

/-- Witness of the amended C6: offset 842 captured at `/admin/items`. -/
theorem capture_postcondition_witness :
    842 < 2 ^ 53 ∧
    (beforeunload (key itemsPage) (((freshWindow []).withStore ⟨[]⟩).atOffset 842)).thrown
      = none ∧
    (beforeunload (key itemsPage)
      (((freshWindow []).withStore ⟨[]⟩).atOffset 842)).window.storedItem
        ("adminScroll:" ++ itemsPage.pathname) = some (Nat.repr 842) :=
  ⟨by decide, by decide,
   (capture_postcondition itemsPage 842 ⟨[]⟩ (freshWindow []) (by decide) (by decide)).1⟩

/-- C7, as stated, fails in two ways.  On a store with room for 25 characters the
capture of offset 5 fits and the capture of offset 4000 that follows is refused:
the store keeps `"5"`, which is not the store a single capture of 4000 leaves,
and the restore calls `scrollTo` with `(0, 5)`.  On a page with 1200 pixels to
scroll, captures of 1200 and then 4000 are both stored and the restore of 4000
leaves the viewport at 1200, the first offset. -/
theorem capture_overwrite_can_fail :
    (beforeunload (key itemsPage)
      ((beforeunload (key itemsPage)
        (((quotaWindow 25 []).withStore ⟨[]⟩).atOffset 5)).window.atOffset 4000)).window.sessionStorage
      = some ⟨[("adminScroll:/admin/items", "5")]⟩ ∧
    (beforeunload (key itemsPage)
      (((quotaWindow 25 []).withStore ⟨[]⟩).atOffset 4000)).window.sessionStorage
      = some ⟨[]⟩ ∧
    (load (key itemsPage) ((freshWindow []).after (beforeunload (key itemsPage)
      ((beforeunload (key itemsPage)
        (((quotaWindow 25 []).withStore ⟨[]⟩).atOffset 5)).window.atOffset 4000)).window)).window.scrollToCalls
      = [(JSNumber.ofNat 0, JSNumber.ofNat 5)] ∧
    (load (key itemsPage) ((shortWindow []).after (beforeunload (key itemsPage)
      ((beforeunload (key itemsPage)
        (((freshWindow []).withStore ⟨[]⟩).atOffset 1200)).window.atOffset 4000)).window)).window.scrollToCalls
      = [(JSNumber.ofNat 0, JSNumber.ofNat 4000)] ∧
    (load (key itemsPage) ((shortWindow []).after (beforeunload (key itemsPage)
      ((beforeunload (key itemsPage)
        (((freshWindow []).withStore ⟨[]⟩).atOffset 1200)).window.atOffset 4000)).window)).window.scrollY
      = 1200 := by
  have h5 : (beforeunload (key itemsPage)
      ((beforeunload (key itemsPage)
        (((quotaWindow 25 []).withStore ⟨[]⟩).atOffset 5)).window.atOffset 4000)).window
      = ((quotaWindow 25 []).atOffset 4000).withStore
          ((Storage.mk []).withItem (key itemsPage) (numberToString 5)) := by
    decide
  have h4000 : (beforeunload (key itemsPage)
      ((beforeunload (key itemsPage)
        (((freshWindow []).withStore ⟨[]⟩).atOffset 1200)).window.atOffset 4000)).window
      = ((freshWindow []).atOffset 4000).withStore
          ((Storage.mk []).withItem (key itemsPage) (numberToString 4000)) := by
    decide
  have r5 := load_written (key itemsPage) 5
    ((freshWindow []).after (((quotaWindow 25 []).atOffset 4000).withStore
      ((Storage.mk []).withItem (key itemsPage) (numberToString 5)))) ⟨[]⟩ (by decide) rfl
  have r4000 := load_written (key itemsPage) 4000
    ((shortWindow []).after (((freshWindow []).atOffset 4000).withStore
      ((Storage.mk []).withItem (key itemsPage) (numberToString 4000)))) ⟨[]⟩ (by decide) rfl
  refine ⟨by decide, by decide, ?_, ?_, ?_⟩
  · rw [h5, r5]
    rfl
  · rw [h4000, r4000]
    rfl
  · rw [h4000, r4000]
    rfl

/-- C7, amended.  Overwrite, last write wins: for offsets N1 and N2 (N2 an integer
Number, as `window.scrollY` is), when the second of two captures at P, with offsets N1 then N2, ends without an
exception, the store is the one a single capture with offset N2 leaves; it
holds exactly one entry for P; and the following restore at P makes one
`scrollTo` call, with `(0, N2)`, which is a call with `(0, N1)` only if N1 = N2,
and leaves the viewport at N2 clamped to the maximal scroll offset of the new
page. -/
theorem capture_overwrites (l : Location) (N1 N2 : Nat) (store : Storage)
    (w fresh : Window) (hN : IsNumber N2)
    (hok : (beforeunload (key l)
      ((beforeunload (key l) ((w.withStore store).atOffset N1)).window.atOffset N2)).thrown
        = none) :
    (beforeunload (key l)
      ((beforeunload (key l) ((w.withStore store).atOffset N1)).window.atOffset N2)).window.sessionStorage
      = (beforeunload (key l) ((w.withStore store).atOffset N2)).window.sessionStorage ∧
    (beforeunload (key l)
      ((beforeunload (key l) ((w.withStore store).atOffset N1)).window.atOffset N2)).window.entryCount
        (key l) = 1 ∧
    (load (key l) (fresh.after (beforeunload (key l)
      ((beforeunload (key l) ((w.withStore store).atOffset N1)).window.atOffset N2)).window)).window.scrollToCalls
      = fresh.scrollToCalls ++ [(JSNumber.ofNat 0, JSNumber.ofNat N2)] ∧
    ((load (key l) (fresh.after (beforeunload (key l)
      ((beforeunload (key l) ((w.withStore store).atOffset N1)).window.atOffset N2)).window)).window.scrollToCalls
      = fresh.scrollToCalls ++ [(JSNumber.ofNat 0, JSNumber.ofNat N1)] ↔ N1 = N2) ∧
    (load (key l) (fresh.after (beforeunload (key l)
      ((beforeunload (key l) ((w.withStore store).atOffset N1)).window.atOffset N2)).window)).window.scrollY
      = min N2 fresh.scrollMaxY := by
  have hsecond : ∃ st : Storage, st.withItem (key l) (numberToString N2)
        = store.withItem (key l) (numberToString N2) ∧
      (beforeunload (key l) ((w.withStore store).atOffset N1)).window.atOffset N2
        = (w.withStore st).atOffset N2 := by
    by_cases h1 : (store.withItem (key l) (numberToString N1)).size ≤ w.storageQuota
    · exact ⟨store.withItem (key l) (numberToString N1), withItem_withItem store _ _ _, by
        rw [capture_of_fits (key l) N1 store w h1]; rfl⟩
    · exact ⟨store, rfl, by rw [capture_of_full (key l) N1 store w h1]; rfl⟩
  obtain ⟨st, hst, hwin⟩ := hsecond
  rw [hwin] at hok ⊢
  have hfit := fits_of_capture_ok (key l) N2 st w hok
  have hfit2 : (store.withItem (key l) (numberToString N2)).size ≤ w.storageQuota := by
    rw [← hst]; exact hfit
  have hrest : load (key l) (fresh.after (beforeunload (key l)
      ((w.withStore st).atOffset N2)).window)
      = load (key l) (fresh.after (beforeunload (key l)
      ((w.withStore store).atOffset N2)).window) := by
    rw [capture_of_fits (key l) N2 st w hfit, capture_of_fits (key l) N2 store w hfit2, hst]
  rw [hrest, load_after_capture (key l) N2 store w fresh hN hfit2,
    capture_of_fits (key l) N2 st w hfit, capture_of_fits (key l) N2 store w hfit2, hst]
  refine ⟨rfl, ?_, rfl, ?_, rfl⟩
  · exact entries_withItem_count store (key l) _
  · constructor
    · intro h
      have h2 := List.append_cancel_left h
      simp only [List.cons.injEq, Prod.mk.injEq, and_true, true_and] at h2
      exact (ofNat_injective N2 N1 h2).symm
    · intro h
      rw [h]

/-- Witness of the amended C7: offsets 5 and then 4000 captured at `/admin/items`
on a store with room for both. -/
theorem capture_overwrites_witness :
    IsNumber 4000 ∧
    (beforeunload (key itemsPage)
      ((beforeunload (key itemsPage)
        (((freshWindow []).withStore ⟨[]⟩).atOffset 5)).window.atOffset 4000)).thrown = none ∧
    (load (key itemsPage) ((freshWindow []).after (beforeunload (key itemsPage)
      ((beforeunload (key itemsPage)
        (((freshWindow []).withStore ⟨[]⟩).atOffset 5)).window.atOffset 4000)).window)).window.scrollToCalls
      = (freshWindow []).scrollToCalls ++ [(JSNumber.ofNat 0, JSNumber.ofNat 4000)] :=
  ⟨by decide, by decide,
   (capture_overwrites itemsPage 5 4000 ⟨[]⟩ (freshWindow []) (freshWindow [])
      (by decide) (by decide)).2.2.1⟩

/-- C8, as stated, fails: `/admin/items` on two hosts gives one and the same key,
yet the offset 842 captured on the first host is not restored on the second.
The session store is per origin, so the page on the second host finds its own
store, here empty: the load listener makes no `scrollTo` call, the viewport
stays at 0, and the entry written on the first host is still there. -/
theorem same_path_other_origin_restores_nothing :
    itemsPage.pathname = itemsPageFiltered.pathname ∧
    itemsPage.host ≠ itemsPageFiltered.host ∧
    key itemsPage = key itemsPageFiltered ∧
    (beforeunload (key itemsPage)
      (((freshWindow []).withStore ⟨[]⟩).atOffset 842)).window.storedItem (key itemsPage)
      = some "842" ∧
    (load (key itemsPageFiltered) ((freshWindow []).afterNavigation
      (beforeunload (key itemsPage) (((freshWindow []).withStore ⟨[]⟩).atOffset 842)).window
      itemsPage itemsPageFiltered)).window.scrollToCalls = [] ∧
    (load (key itemsPageFiltered) ((freshWindow []).afterNavigation
      (beforeunload (key itemsPage) (((freshWindow []).withStore ⟨[]⟩).atOffset 842)).window
      itemsPage itemsPageFiltered)).window.scrollY = 0 := by
  decide

/-- C8, amended.  The key depends only on the path: any two locations with the
same pathname have the same key, the prefix `"adminScroll:"` followed by the
pathname, whatever their host, query string and fragment.  When the two
locations are also of one origin, so that they share the session store, an
offset N (an integer Number) whose capture at one of them ends without an exception
is the one the load listener at the other calls `scrollTo` with, and consumes;
the viewport ends at N clamped to the maximal scroll offset of the new page. -/
theorem key_depends_only_on_pathname (l1 l2 : Location) (N : Nat) (store : Storage)
    (w fresh : Window) (h : l1.pathname = l2.pathname) (ho : l1.origin = l2.origin)
    (hN : IsNumber N)
    (hok : (beforeunload (key l1) ((w.withStore store).atOffset N)).thrown = none) :
    (∀ a b : Location, a.pathname = b.pathname → key a = key b) ∧
    key l1 = key l2 ∧
    key l1 = "adminScroll:" ++ l1.pathname ∧
    (load (key l2) (fresh.afterNavigation
      (beforeunload (key l1) ((w.withStore store).atOffset N)).window l1 l2)).window.scrollToCalls
      = fresh.scrollToCalls ++ [(JSNumber.ofNat 0, JSNumber.ofNat N)] ∧
    (load (key l2) (fresh.afterNavigation
      (beforeunload (key l1) ((w.withStore store).atOffset N)).window l1 l2)).window.scrollY
      = min N fresh.scrollMaxY ∧
    (load (key l2) (fresh.afterNavigation
      (beforeunload (key l1) ((w.withStore store).atOffset N)).window l1 l2)).window.storedItem
        (key l1) = none := by
  have hk : key l1 = key l2 := (key_eq_iff l1 l2).mpr h
  have hfit := fits_of_capture_ok (key l1) N store w hok
  have hnav : fresh.afterNavigation
      (beforeunload (key l1) ((w.withStore store).atOffset N)).window l1 l2
      = fresh.after (beforeunload (key l1) ((w.withStore store).atOffset N)).window := by
    unfold Window.afterNavigation
    rw [if_pos ho]
  rw [hnav, ← hk, load_after_capture (key l1) N store w fresh hN hfit]
  refine ⟨fun a b hab => (key_eq_iff a b).mpr hab, rfl, rfl, rfl, rfl, ?_⟩
  exact getItem_removeItem_same store (key l1)

/-- Witness of the amended C8: `/admin/items` on one host, once plain and once
with a query string and a fragment. -/
theorem key_depends_only_on_pathname_witness :
    itemsPage.pathname = itemsPageSorted.pathname ∧
    itemsPage.origin = itemsPageSorted.origin ∧
    itemsPage.search ≠ itemsPageSorted.search ∧
    itemsPage.hash ≠ itemsPageSorted.hash ∧
    IsNumber 842 ∧
    (beforeunload (key itemsPage) (((freshWindow []).withStore ⟨[]⟩).atOffset 842)).thrown
      = none ∧
    (load (key itemsPageSorted) ((freshWindow []).afterNavigation
      (beforeunload (key itemsPage) (((freshWindow []).withStore ⟨[]⟩).atOffset 842)).window
      itemsPage itemsPageSorted)).window.scrollToCalls
      = (freshWindow []).scrollToCalls ++ [(JSNumber.ofNat 0, JSNumber.ofNat 842)] :=
  ⟨by decide, by decide, by decide, by decide, by decide, by decide,
   (key_depends_only_on_pathname itemsPage itemsPageSorted 842 ⟨[]⟩
      (freshWindow []) (freshWindow []) (by decide) (by decide) (by decide) (by decide)).2.2.2.1⟩

/-- C9, as stated, fails: with the unparseable value `"abc"` stored under the key
of `/admin/items`, the load listener does call `scrollTo`, with the target
`(0, NaN)`. -/
theorem malformed_value_is_not_treated_as_absent :
    (Storage.mk [("adminScroll:/admin/items", "abc")]).getItem (key itemsPage) = some "abc" ∧
    stringToNumber "abc" = JSNumber.nan ∧
    (load (key itemsPage)
      (freshWindow [("adminScroll:/admin/items", "abc")])).window.scrollToCalls
      = [(JSNumber.ofNat 0, JSNumber.nan)] ∧
    (load (key itemsPage)
      (freshWindow [("adminScroll:/admin/items", "abc")])).window.scrollToCalls
      ≠ (freshWindow [("adminScroll:/admin/items", "abc")]).scrollToCalls := by
  decide

/-- C9, amended. When the entry under the key of P is a string that does not
parse as a number, the load listener at P ends normally after exactly one
`scrollTo` call, with the target `(0, NaN)`, and the entry is removed. -/
theorem malformed_value_scrolls_to_nan (l : Location) (store : Storage) (v : String)
    (w : Window) (hv : store.getItem (key l) = some v)
    (hn : stringToNumber v = JSNumber.nan) :
    (load (key l) (w.withStore store)).thrown = none ∧
    (load (key l) (w.withStore store)).window.scrollToCalls
      = w.scrollToCalls ++ [(JSNumber.ofNat 0, JSNumber.nan)] ∧
    (load (key l) (w.withStore store)).window.storedItem (key l) = none := by
  rw [load_present (key l) v (w.withStore store) store rfl hv, hn]
  exact ⟨rfl, rfl, getItem_removeItem_same store (key l)⟩

/-- Witness of the amended C9 at the stored value `"abc"`. -/
theorem malformed_value_scrolls_to_nan_witness :
    (Storage.mk [("adminScroll:/admin/items", "abc")]).getItem (key itemsPage) = some "abc" ∧
    stringToNumber "abc" = JSNumber.nan ∧
    (load (key itemsPage)
      ((freshWindow []).withStore ⟨[("adminScroll:/admin/items", "abc")]⟩)).window.storedItem
        (key itemsPage) = none :=
  ⟨by decide, by decide,
   (malformed_value_scrolls_to_nan itemsPage ⟨[("adminScroll:/admin/items", "abc")]⟩ "abc"
      (freshWindow []) (by decide) (by decide)).2.2⟩

/-- C10. Store-access failure is propagated and changes nothing: when the session
store cannot be accessed, both listeners end with the storage exception and the
page state they were given, so no `scrollTo` call is made and the viewport is
where it was. -/
theorem storage_failure_propagates (l : Location) (w : Window)
    (h : w.sessionStorage = none) :
    beforeunload (key l) w = ⟨some JSException.storageAccess, w⟩ ∧
    load (key l) w = ⟨some JSException.storageAccess, w⟩ := by
  simp [beforeunload, load, h]

/-- Witness of C10 in a tab without session storage. -/
theorem storage_failure_propagates_witness :
    storelessWindow.sessionStorage = none ∧
    load (key itemsPage) storelessWindow = ⟨some JSException.storageAccess, storelessWindow⟩ :=
  ⟨rfl, (storage_failure_propagates itemsPage storelessWindow rfl).2⟩

end PersistScroll
